import Mathlib

/-!
Verification of the fast garbled boolean circuit engine
(`src/cpp/ScapiCpp/include/circuits/FastGarbledBooleanCircuit.hpp`).

The header declares the circuit contract and delegates most bodies to the
native backend (`ScGarbledCircuitNoFixedKey`), which is not part of this
repository snapshot; those operations are modelled from the specification
(free-XOR garbling with point-and-permute, spec sections 4.1 to 4.4) and each
such definition says so in its doc comment.  Operations whose bodies are
inline in the header (`setInputs`, `verifiedTranslate`, `getNumberOfInputs`,
`JustGarbledGarbledTablesHolder`) are embedded directly from the source.

Keys are fixed-width byte strings in the source; they are embedded as natural
numbers with bitwise XOR, and the signal (point-and-permute) bit is the least
significant bit.  Byte buffers holding one item per wire become lists.
-/

namespace Scapi

/-- Signal (point-and-permute) bit of a wire key: its least significant bit. -/
def signal (k : Nat) : Bool := k.testBit 0

/-- Key of a wire whose zero-key is `k0`, encoding plaintext value `v`, under
the global free-XOR offset `R`: spec invariant `key1(w) = key0(w) XOR R`. -/
def keyFor (k0 R : Nat) (v : Bool) : Nat := if v then k0 ^^^ R else k0

/-- Gate type of a circuit description: an XOR gate is free (contributes no
table rows); every other supported type (AND, OR, NAND, ...) is a table gate
given by its truth table. -/
inductive GateType where
  | xorGate : GateType
  | tableGate : (Bool → Bool → Bool) → GateType

/-- One two-input boolean gate: ordered input wire ids and one output wire id
(spec section 3, Circuit Description). -/
structure Gate where
  in0 : Nat
  in1 : Nat
  outW : Nat
  typ : GateType

/-- Plaintext semantics of a gate type. -/
def evalGate : GateType → Bool → Bool → Bool
  | .xorGate, a, b => a ^^ b
  | .tableGate tt, a, b => tt a b

/-- Direct plaintext evaluation of the gate list, in the given (topological)
order, over a total wire assignment. -/
def plainEvalAux : (Nat → Bool) → List Gate → (Nat → Bool)
  | v, [] => v
  | v, g :: gs =>
    plainEvalAux (Function.update v g.outW (evalGate g.typ (v g.in0) (v g.in1))) gs

/-- Modelled from the spec (4.1): one ciphertext row of a non-free gate's
garbled table.  The row addressed by signal bits `(sa, sb)` holds the output
key for the gate value at the plaintext inputs whose keys carry those signal
bits, encrypted (one-time pad) under a keyed pseudorandom function `F` of the
two input keys and the gate index. -/
def tableRow (F : Nat → Nat → Nat → Nat) (i R ka0 kb0 ko0 : Nat)
    (tt : Bool → Bool → Bool) (sa sb : Bool) : Nat :=
  let va := sa ^^ signal ka0
  let vb := sb ^^ signal kb0
  F (keyFor ka0 R va) (keyFor kb0 R vb) i ^^^ keyFor ko0 R (tt va vb)

/-- Modelled from the spec (4.1): the four rows of a non-free gate's garbled
table, ordered by the pair of input signal bits (point-and-permute). -/
def gateTable (F : Nat → Nat → Nat → Nat) (i R ka0 kb0 ko0 : Nat)
    (tt : Bool → Bool → Bool) : List Nat :=
  [tableRow F i R ka0 kb0 ko0 tt false false,
   tableRow F i R ka0 kb0 ko0 tt false true,
   tableRow F i R ka0 kb0 ko0 tt true false,
   tableRow F i R ka0 kb0 ko0 tt true true]

/-- Row selection by the evaluator's two signal bits: row index `2*sa + sb`. -/
def selectRow (rows : List Nat) (sa sb : Bool) : Nat :=
  rows.getD (2 * (cond sa 1 0) + cond sb 1 0) 0

/-- Modelled from the spec (4.1): garble the gate list in order, threading the
zero-key map.  An XOR gate is free: its output zero-key is the XOR of the
input zero-keys and it emits no rows.  A table gate draws its output zero-key
from the PRG stream (`prg`) and emits four point-and-permute rows. -/
def garbleGatesAux (F : Nat → Nat → Nat → Nat) (prg : Nat → Nat) (R : Nat) :
    Nat → (Nat → Nat) → List Gate → (Nat → Nat) × List (List Nat)
  | _, k0, [] => (k0, [])
  | i, k0, g :: gs =>
    match g.typ with
    | .xorGate =>
      let r := garbleGatesAux F prg R (i + 1)
        (Function.update k0 g.outW (k0 g.in0 ^^^ k0 g.in1)) gs
      (r.1, [] :: r.2)
    | .tableGate tt =>
      let ko0 := prg g.outW
      let t := gateTable F i R (k0 g.in0) (k0 g.in1) ko0 tt
      let r := garbleGatesAux F prg R (i + 1) (Function.update k0 g.outW ko0) gs
      (r.1, t :: r.2)

/-- Modelled from the spec (4.2): evaluate the gate list on a single key per
wire.  An XOR gate XORs the two input keys; a table gate selects the row
addressed by the evaluator's own signal bits and decrypts it. -/
def computeGatesAux (F : Nat → Nat → Nat → Nat) :
    Nat → (Nat → Nat) → List Gate → List (List Nat) → (Nat → Nat)
  | _, k, [], _ => k
  | i, k, g :: gs, ts =>
    let kout :=
      match g.typ with
      | .xorGate => k g.in0 ^^^ k g.in1
      | .tableGate _ =>
        F (k g.in0) (k g.in1) i ^^^
          selectRow (ts.headD []) (signal (k g.in0)) (signal (k g.in1))
    computeGatesAux F (i + 1) (Function.update k g.outW kout) gs ts.tail

theorem signal_xor (a b : Nat) : signal (a ^^^ b) = (signal a ^^ signal b) :=
  Nat.testBit_xor a b 0

theorem signal_keyFor {R : Nat} (hR : signal R = true) (k0 : Nat) (v : Bool) :
    signal (keyFor k0 R v) = (signal k0 ^^ v) := by
  cases v <;> simp [keyFor, signal_xor, hR]

theorem bxor_cancel (a b : Bool) : ((a ^^ b) ^^ a) = b := by
  cases a <;> cases b <;> rfl

theorem keyFor_xor (a b R : Nat) (x y : Bool) :
    keyFor a R x ^^^ keyFor b R y = keyFor (a ^^^ b) R (x ^^ y) := by
  cases x <;> cases y <;> simp [keyFor]
  · exact (Nat.xor_assoc a b R).symm
  · rw [Nat.xor_assoc a R b, Nat.xor_comm R b, ← Nat.xor_assoc]
  · rw [Nat.xor_assoc a R (b ^^^ R), Nat.xor_comm b R, Nat.xor_cancel_left]

theorem selectRow_gateTable (F : Nat → Nat → Nat → Nat) (i R ka0 kb0 ko0 : Nat)
    (tt : Bool → Bool → Bool) (sa sb : Bool) :
    selectRow (gateTable F i R ka0 kb0 ko0 tt) sa sb
      = tableRow F i R ka0 kb0 ko0 tt sa sb := by
  cases sa <;> cases sb <;> rfl

theorem decrypt_table {R : Nat} (hR : signal R = true) (F : Nat → Nat → Nat → Nat)
    (i ka0 kb0 ko0 : Nat) (tt : Bool → Bool → Bool) (va vb : Bool) :
    F (keyFor ka0 R va) (keyFor kb0 R vb) i ^^^
      selectRow (gateTable F i R ka0 kb0 ko0 tt)
        (signal (keyFor ka0 R va)) (signal (keyFor kb0 R vb))
      = keyFor ko0 R (tt va vb) := by
  rw [selectRow_gateTable, signal_keyFor hR, signal_keyFor hR]
  simp only [tableRow, bxor_cancel]
  rw [Nat.xor_cancel_left]

theorem keyFor_update (k0 : Nat → Nat) (v : Nat → Bool) (R o ko : Nat) (vo : Bool) :
    Function.update (fun u => keyFor (k0 u) R (v u)) o (keyFor ko R vo)
      = fun u => keyFor (Function.update k0 o ko u) R (Function.update v o vo u) := by
  funext u
  by_cases hu : u = o <;> simp [Function.update_apply, hu]

/-- Key-correctness of evaluation against garbling: starting from keys that
encode the plaintext assignment `v` wire by wire, evaluating the gates over
the emitted tables yields, on every wire, the key encoding the plaintext
evaluation of that wire. -/
theorem computeGatesAux_correct (F : Nat → Nat → Nat → Nat) (prg : Nat → Nat)
    {R : Nat} (hR : signal R = true) :
    ∀ (gates : List Gate) (i : Nat) (k0 : Nat → Nat) (v : Nat → Bool) (w : Nat),
      computeGatesAux F i (fun u => keyFor (k0 u) R (v u)) gates
          (garbleGatesAux F prg R i k0 gates).2 w
        = keyFor ((garbleGatesAux F prg R i k0 gates).1 w) R (plainEvalAux v gates w) := by
  intro gates
  induction gates with
  | nil => intro i k0 v w; rfl
  | cons g gs ih =>
    intro i k0 v w
    obtain ⟨a, b, o, ty⟩ := g
    cases ty with
    | xorGate =>
      simp only [garbleGatesAux, computeGatesAux, plainEvalAux, evalGate,
        List.headD_cons, List.tail_cons]
      rw [keyFor_xor, keyFor_update]
      exact ih (i + 1) (Function.update k0 o (k0 a ^^^ k0 b)) (Function.update v o (v a ^^ v b)) w
    | tableGate tt =>
      simp only [garbleGatesAux, computeGatesAux, plainEvalAux, evalGate,
        List.headD_cons, List.tail_cons]
      rw [decrypt_table hR, keyFor_update]
      exact ih (i + 1) (Function.update k0 o (prg o)) (Function.update v o (tt (v a) (v b))) w

/-- Immutable circuit description (spec section 3): ordered gate list, the
input wire index list, the output wire index list, and the per-party input
counts (the native `getNumOfInputsForEachParty` array). -/
structure CircuitDescription where
  gates : List Gate
  inputIndices : List Nat
  outputIndices : List Nat
  numOfInputsForEachParty : List Nat

/-- Failure taxonomy of the engine (spec section 7): the exceptions named in
the header's doc comments. -/
inductive ScapiError where
  | notAllInputsSet : ScapiError
  | noSuchParty : ScapiError
  | invalidKey : ScapiError
  | invalidArgument : ScapiError
  | cheatAttempt : ScapiError
deriving DecidableEq

/-- Garbling result (the header's `FastCircuitCreationValues`): both keys for
every input wire, both keys for every output wire (each wire's key0 then
key1, in wire order), and the translation table. -/
structure FastCircuitCreationValues where
  allInputWireValues : List Nat
  allOutputWireValues : List Nat
  translationTable : List Bool
deriving DecidableEq

/-- Flattening of a per-wire key pair list into the exchanged buffer layout
`[k0,0  k0,1  k1,0  k1,1 ...]` (spec section 6). -/
def interleavePairs : List (Nat × Nat) → List Nat
  | [] => []
  | p :: ps => p.1 :: p.2 :: interleavePairs ps

/-- Everything one seeded garbling produces: the creation values handed to the
caller, the garbled tables, and the global free-XOR offset. -/
structure GarbleResult where
  values : FastCircuitCreationValues
  tables : List (List Nat)
  offset : Nat
deriving DecidableEq

/-- Modelled from the spec (4.1): the global free-XOR offset is PRG-derived
with least significant bit forced to 1 (point-and-permute convention). -/
def offsetR (prg : Nat → Nat) : Nat := 2 * prg 0 + 1

/-- Modelled from the spec (4.1): the PRG-drawn zero-key of a wire. -/
def wireKey0 (prg : Nat → Nat) (w : Nat) : Nat := prg (w + 1)

/-- Modelled from the spec (4.1): the whole garbling pass.  The bodies of
`ScNativeGarbledBooleanCircuitNoFixedKey::garble` live in the native backend
outside this repository snapshot; this follows the spec's algorithm: zero-keys
from the PRG stream, a global offset `R` with low bit 1, `key1 = key0 XOR R`
on every wire, free XOR gates, four point-and-permute rows per other gate, and
a translation table recording each output wire's key0 signal bit. -/
def garbleCore (F : Nat → Nat → Nat → Nat) (prg : Nat → Nat)
    (c : CircuitDescription) : GarbleResult :=
  let R := offsetR prg
  let res := garbleGatesAux F (wireKey0 prg) R 0 (wireKey0 prg) c.gates
  { values :=
    { allInputWireValues :=
        interleavePairs (c.inputIndices.map fun w => (wireKey0 prg w, wireKey0 prg w ^^^ R))
      allOutputWireValues :=
        interleavePairs (c.outputIndices.map fun w => (res.1 w, res.1 w ^^^ R))
      translationTable := c.outputIndices.map fun w => signal (res.1 w) }
    tables := res.2
    offset := R }

/-- Modelled from the spec (4.1): `garble(byte* seed)`.  The seed keys the
PRG (here: selects the stream `prgOfSeed seed`); a seed that is not a valid
PRG key (not `SCAPI_NATIVE_KEY_SIZE = 16` bytes) fails with `InvalidKey`. -/
def garbleSeeded (F : Nat → Nat → Nat → Nat) (prgOfSeed : List Nat → Nat → Nat)
    (c : CircuitDescription) (seed : List Nat) : Except ScapiError GarbleResult :=
  if seed.length = 16 then .ok (garbleCore F (prgOfSeed seed) c) else .error .invalidKey

/-- Modelled from the spec (4.1 and section 1): the no-argument `garble()`
draws fresh randomness — externally supplied here as a random stream (the
header includes `openssl/rand.h` for exactly this) — and garbles with it. -/
def garbleFresh (F : Nat → Nat → Nat → Nat) (c : CircuitDescription)
    (randomness : Nat → Nat) : GarbleResult :=
  garbleCore F randomness c

/-- Modelled from the spec (4.4): `translate` maps each output key to the XOR
of its signal bit with the corresponding translation table entry. -/
def translate (translationTable : List Bool) (garbledOutput : List Nat) : List Bool :=
  (garbledOutput.zip translationTable).map fun p : Nat × Bool => signal p.1 ^^ p.2

/-- Modelled from the spec (4.2): the single key per wire that encodes the
plaintext assignment `x`; restricted to the input wires this is exactly the
garbled input that `getGarbledInputFromUngarbledInput` selects out of
`allInputWireValues`. -/
def selectedKeys (prg : Nat → Nat) (x : Nat → Bool) : Nat → Nat :=
  fun w => keyFor (wireKey0 prg w) (offsetR prg) (x w)

theorem signal_offsetR (prg : Nat → Nat) : signal (offsetR prg) = true := by
  simp only [signal, offsetR, Nat.testBit_zero, decide_eq_true_eq]
  omega

/-- Mutable part of a `ScNativeGarbledBooleanCircuitNoFixedKey` instance that
the header keeps on the wrapper side: the stored garbled input buffer. -/
structure ScNativeState where
  garbledInputs : List Nat
deriving DecidableEq

/-- Embedding of the inline body
`void setInputs(vector<byte>& garbledInputs) override { this->garbledInputs = garbledInputs; }`:
it stores the given buffer unconditionally, replacing any previous one. -/
def setInputs (st : ScNativeState) (garbledInputs : List Nat) : ScNativeState :=
  { st with garbledInputs := garbledInputs }

/-- Assignment of a key list to a wire index list, key `i` on wire `i`. -/
def assignKeys (ws ks : List Nat) : Nat → Nat :=
  (ws.zip ks).foldl (fun m p => Function.update m p.1 p.2) fun _ => 0

/-- Modelled from the spec (4.2): `compute()` checks that the stored input
buffer holds one key for every input wire of every party (the header:
`@throws NotAllInputsSetException if the given inputs array is not the same
size of the inputs for this circuit`) and, when it does, walks the gates and
returns exactly one key per output wire. -/
def compute (F : Nat → Nat → Nat → Nat) (c : CircuitDescription)
    (tables : List (List Nat)) (st : ScNativeState) : Except ScapiError (List Nat) :=
  if st.garbledInputs.length = c.inputIndices.length then
    .ok (c.outputIndices.map
      (computeGatesAux F 0 (assignKeys c.inputIndices st.garbledInputs) c.gates tables))
  else .error .notAllInputsSet

/-- Splitting of an exchanged both-keys buffer `[k0,0 k0,1 k1,0 k1,1 ...]`
back into per-wire key pairs. -/
def unpairKeys : List Nat → List (Nat × Nat)
  | a :: b :: rest => (a, b) :: unpairKeys rest
  | _ => []

/-- Modelled from the spec (4.3): verification of one table gate.  Both output
keys are recovered by decrypting the rows addressed by the derived input keys
and checked for consistency with the existing offset: the key recovered from
the `(false, false)` row fixes the candidate zero-key, and the other three
rows must decrypt to the matching offset-related key. -/
def verifyGate (F : Nat → Nat → Nat → Nat) (i R ka0 kb0 : Nat)
    (tt : Bool → Bool → Bool) (rows : List Nat) : Bool × Nat :=
  let dec := fun va vb =>
    F (keyFor ka0 R va) (keyFor kb0 R vb) i ^^^
      selectRow rows (signal (keyFor ka0 R va)) (signal (keyFor kb0 R vb))
  let d00 := dec false false
  let ko0 := if tt false false then d00 ^^^ R else d00
  let ok := (dec false true == keyFor ko0 R (tt false true)) &&
            (dec true false == keyFor ko0 R (tt true false)) &&
            (dec true true == keyFor ko0 R (tt true true))
  (ok, ko0)

/-- Modelled from the spec (4.3): gate-by-gate re-derivation of the garbling.
XOR wires get the derived XOR zero-key (both keys then satisfy the same
offset relationship); table gates are checked with `verifyGate`. -/
def internalVerifyGates (F : Nat → Nat → Nat → Nat) (R : Nat) :
    Nat → (Nat → Nat) → List Gate → List (List Nat) → Bool × (Nat → Nat)
  | _, k0, [], _ => (true, k0)
  | i, k0, g :: gs, ts =>
    match g.typ with
    | .xorGate =>
      internalVerifyGates F R (i + 1)
        (Function.update k0 g.outW (k0 g.in0 ^^^ k0 g.in1)) gs ts.tail
    | .tableGate tt =>
      let vg := verifyGate F i R (k0 g.in0) (k0 g.in1) tt (ts.headD [])
      let rest := internalVerifyGates F R (i + 1) (Function.update k0 g.outW vg.2) gs ts.tail
      (vg.1 && rest.1, rest.2)

/-- Modelled from the spec (4.3): `internalVerify` takes both keys for every
input wire, derives the global offset from the first pair, checks every input
pair satisfies it, re-derives the complete garbling by construction, and
fills the both-keys buffer of every output wire; it returns whether every
check passed, together with that output buffer. -/
def internalVerify (F : Nat → Nat → Nat → Nat) (c : CircuitDescription)
    (tables : List (List Nat)) (allInputWireValues : List Nat) : Bool × List Nat :=
  let pairs := unpairKeys allInputWireValues
  let R := match pairs with
    | [] => 0
    | p :: _ => p.1 ^^^ p.2
  let inputsOk := (pairs.length == c.inputIndices.length) &&
    pairs.all fun p => p.2 == p.1 ^^^ R
  let k0 := assignKeys c.inputIndices (pairs.map Prod.fst)
  let res := internalVerifyGates F R 0 k0 c.gates tables
  (inputsOk && res.1, interleavePairs (c.outputIndices.map fun w => (res.2 w, res.2 w ^^^ R)))

/-- Modelled from the spec (4.3): `verifyTranslationTable` checks that each
output wire's key0 signal bit matches the stored translation table entry. -/
def verifyTranslationTable (translationTable : List Bool)
    (allOutputWireValues : List Nat) : Bool :=
  let pairs := unpairKeys allOutputWireValues
  (pairs.length == translationTable.length) &&
    ((pairs.zip translationTable).all fun pt => signal pt.1.1 == pt.2)

/-- Modelled from the spec (4.3): `verify` is the convenience that performs
`internalVerify` and then `verifyTranslationTable` on the output keys the
former derives, returning true only if both succeed. -/
def verify (F : Nat → Nat → Nat → Nat) (c : CircuitDescription)
    (tables : List (List Nat)) (translationTable : List Bool)
    (allInputWireValues : List Nat) : Bool :=
  let res := internalVerify F c tables allInputWireValues
  res.1 && verifyTranslationTable translationTable res.2

/-- Result type of `verifiedTranslate`.  The C++ signature returns a `byte*`
and documents a `CheatAttemptException`; `nullPointer` models a returned
`NULL`, `cheatAttempt` the exception, `output` a translated bit array. -/
inductive VerifiedTranslateResult where
  | nullPointer : VerifiedTranslateResult
  | cheatAttempt : VerifiedTranslateResult
  | output : List Bool → VerifiedTranslateResult
deriving DecidableEq

/-- Embedding of the inline body of
`ScNativeGarbledBooleanCircuitNoFixedKey::verifiedTranslate`, which is
`{ return NULL; }` in its entirety. -/
def verifiedTranslate (garbledOutput allOutputWireValues : List Nat) :
    VerifiedTranslateResult :=
  VerifiedTranslateResult.nullPointer

/-- Embedding of the inline body of
`ScNativeGarbledBooleanCircuitNoFixedKey::getNumberOfInputs`, which is
`return garbledCircuitPtr->getNumOfInputsForEachParty()[partyNumber - 1];` —
a raw array read with no party-number check.  An in-bounds index returns the
stored count; anything else is an out-of-bounds read (undefined behavior),
modelled as `none`.  No `NoSuchParty` failure is ever produced. -/
def getNumberOfInputs (numOfInputsForEachParty : List Nat) (partyNumber : Int) :
    Option Nat :=
  if h : 0 ≤ partyNumber - 1 ∧ (partyNumber - 1).toNat < numOfInputsForEachParty.length
  then some (numOfInputsForEachParty.get ⟨(partyNumber - 1).toNat, h.2⟩)
  else none

/-- Embedding of `JustGarbledGarbledTablesHolder`: one byte region and its
size, exactly the two fields of the C++ class. -/
structure JustGarbledGarbledTablesHolder where
  garbledTables : List Nat
  size : Int
deriving DecidableEq

/-- Embedding of `JustGarbledGarbledTablesHolder::getArraySize`: throws
`invalid_argument` unless `arrIndex` is 0, otherwise returns the stored
size. -/
def JustGarbledGarbledTablesHolder.getArraySize
    (h : JustGarbledGarbledTablesHolder) (arrIndex : Int) : Except ScapiError Int :=
  if arrIndex ≠ 0 then .error .invalidArgument else .ok h.size

/-- Embedding of `JustGarbledGarbledTablesHolder::toDoubleByteArray`: a
double array whose single entry is the held region. -/
def JustGarbledGarbledTablesHolder.toDoubleByteArray
    (h : JustGarbledGarbledTablesHolder) : List (List Nat) :=
  [h.garbledTables]

/-- Embedding of `JustGarbledGarbledTablesHolder::setGarbledTables`: replaces
both fields. -/
def JustGarbledGarbledTablesHolder.setGarbledTables
    (h : JustGarbledGarbledTablesHolder) (garbledTables : List Nat) (size : Int) :
    JustGarbledGarbledTablesHolder :=
  { garbledTables := garbledTables, size := size }

theorem interleavePairs_length (l : List (Nat × Nat)) :
    (interleavePairs l).length = 2 * l.length := by
  induction l with
  | nil => rfl
  | cons p ps ih => simp [interleavePairs, ih]; omega

theorem interleavePairs_map_getD (f g : Nat → Nat) (l : List Nat) :
    ∀ i, i < l.length →
      (interleavePairs (l.map fun w => (f w, g w))).getD (2 * i) 0 = f (l.getD i 0) ∧
      (interleavePairs (l.map fun w => (f w, g w))).getD (2 * i + 1) 0 = g (l.getD i 0) := by
  induction l with
  | nil => intro i h; exact absurd h (Nat.not_lt_zero i)
  | cons a as ih =>
    intro i h
    cases i with
    | zero => exact ⟨rfl, rfl⟩
    | succ j =>
      have h2 : 2 * (j + 1) = 2 * j + 1 + 1 := by ring
      rw [h2]
      simp only [List.map_cons, interleavePairs, List.getD_cons_succ]
      exact ih j (by simpa using Nat.lt_of_succ_lt_succ h)

/-- Claim C2: for every circuit description and every plaintext assignment
`x` (given on all wires; on a well-formed description only its values on the
input wires matter), garbling the circuit, selecting the input keys that
encode `x`, running compute on the garbled tables, and translating the output
keys through the translation table yields exactly the direct plaintext
evaluation of the boolean circuit on `x`, for every supported gate type (the
free XOR gate and every truth-table gate). -/
theorem round_trip (F : Nat → Nat → Nat → Nat) (prg : Nat → Nat)
    (c : CircuitDescription) (x : Nat → Bool) :
    translate (garbleCore F prg c).values.translationTable
        (c.outputIndices.map
          (computeGatesAux F 0 (selectedKeys prg x) c.gates (garbleCore F prg c).tables))
      = c.outputIndices.map (plainEvalAux x c.gates) := by
  have hR := signal_offsetR prg
  simp only [garbleCore, translate]
  rw [List.zip_map', List.map_map]
  apply List.map_congr_left
  intro w _
  simp only [Function.comp_apply]
  have hsel : selectedKeys prg x = fun u => keyFor (wireKey0 prg u) (offsetR prg) (x u) := rfl
  rw [hsel, computeGatesAux_correct F (wireKey0 prg) hR c.gates 0 (wireKey0 prg) x w,
    signal_keyFor hR, bxor_cancel]

/-- Sample keyed pseudorandom function used by concrete instantiations. -/
def sampleF : Nat → Nat → Nat → Nat := fun a b i => a + 2 * b + 3 * i

/-- Sample PRG-stream family keyed by a seed. -/
def samplePrgOfSeed : List Nat → Nat → Nat := fun s n => s.headD 0 + n

/-- Sample circuit: one AND gate, two input wires (one per party), one output
wire. -/
def sampleCircuit : CircuitDescription :=
  { gates := [{ in0 := 0, in1 := 1, outW := 2, typ := GateType.tableGate fun a b => a && b }]
    inputIndices := [0, 1]
    outputIndices := [2]
    numOfInputsForEachParty := [1, 1] }

/-- Sample 16-byte seed. -/
def sampleSeed : List Nat := List.replicate 16 0

/-- Garbling of the sample circuit from the sample seed. -/
def sampleResult : GarbleResult := garbleCore sampleF (samplePrgOfSeed sampleSeed) sampleCircuit

/-- Claim C3: for every circuit description and every valid seed, two calls
to `garble(seed)` on the same description and seed produce byte-identical
input-wire keys, output-wire keys, garbled tables, and translation table. -/
theorem garble_deterministic (F : Nat → Nat → Nat → Nat)
    (prgOfSeed : List Nat → Nat → Nat) (c : CircuitDescription)
    (s1 s2 : List Nat) (hs : s1 = s2) (r1 r2 : GarbleResult)
    (h1 : garbleSeeded F prgOfSeed c s1 = Except.ok r1)
    (h2 : garbleSeeded F prgOfSeed c s2 = Except.ok r2) :
    r1.values.allInputWireValues = r2.values.allInputWireValues ∧
    r1.values.allOutputWireValues = r2.values.allOutputWireValues ∧
    r1.tables = r2.tables ∧
    r1.values.translationTable = r2.values.translationTable := by
  subst hs
  rw [h1] at h2
  injection h2 with h
  subst h
  exact ⟨rfl, rfl, rfl, rfl⟩

/-- Witness for C3 at the sample circuit and seed. -/
theorem garble_deterministic_witness :
    sampleResult.values.allInputWireValues = sampleResult.values.allInputWireValues ∧
    sampleResult.values.allOutputWireValues = sampleResult.values.allOutputWireValues ∧
    sampleResult.tables = sampleResult.tables ∧
    sampleResult.values.translationTable = sampleResult.values.translationTable :=
  garble_deterministic sampleF samplePrgOfSeed sampleCircuit sampleSeed sampleSeed rfl
    sampleResult sampleResult rfl rfl

/-- Claim C4: after any garbling there is a single offset `R`, fixed across
the whole circuit and with least significant bit 1, such that in both emitted
key buffers every wire's key1 equals its key0 XOR `R`; consequently the two
keys of a wire carry opposite signal bits. -/
theorem free_xor_invariant (F : Nat → Nat → Nat → Nat) (prg : Nat → Nat)
    (c : CircuitDescription) (i j : Nat)
    (hi : i < c.inputIndices.length) (hj : j < c.outputIndices.length) :
    signal (garbleCore F prg c).offset = true ∧
    (garbleCore F prg c).values.allInputWireValues.getD (2 * i + 1) 0
      = (garbleCore F prg c).values.allInputWireValues.getD (2 * i) 0 ^^^
          (garbleCore F prg c).offset ∧
    signal ((garbleCore F prg c).values.allInputWireValues.getD (2 * i + 1) 0)
      = !signal ((garbleCore F prg c).values.allInputWireValues.getD (2 * i) 0) ∧
    (garbleCore F prg c).values.allOutputWireValues.getD (2 * j + 1) 0
      = (garbleCore F prg c).values.allOutputWireValues.getD (2 * j) 0 ^^^
          (garbleCore F prg c).offset ∧
    signal ((garbleCore F prg c).values.allOutputWireValues.getD (2 * j + 1) 0)
      = !signal ((garbleCore F prg c).values.allOutputWireValues.getD (2 * j) 0) := by
  have hR := signal_offsetR prg
  simp only [garbleCore]
  obtain ⟨h1, h2⟩ := interleavePairs_map_getD (wireKey0 prg)
    (fun w => wireKey0 prg w ^^^ offsetR prg) c.inputIndices i hi
  obtain ⟨h3, h4⟩ := interleavePairs_map_getD
    ((garbleGatesAux F (wireKey0 prg) (offsetR prg) 0 (wireKey0 prg) c.gates).1)
    (fun w => (garbleGatesAux F (wireKey0 prg) (offsetR prg) 0 (wireKey0 prg) c.gates).1 w ^^^
      offsetR prg) c.outputIndices j hj
  rw [h1, h2, h3, h4]
  refine ⟨hR, rfl, ?_, rfl, ?_⟩ <;> rw [signal_xor, hR, Bool.xor_true]

/-- Witness for C4 at the sample garbling, first input wire and first output
wire. -/
theorem free_xor_invariant_witness :
    signal sampleResult.offset = true ∧
    sampleResult.values.allInputWireValues.getD 1 0
      = sampleResult.values.allInputWireValues.getD 0 0 ^^^ sampleResult.offset ∧
    signal (sampleResult.values.allInputWireValues.getD 1 0)
      = !signal (sampleResult.values.allInputWireValues.getD 0 0) ∧
    sampleResult.values.allOutputWireValues.getD 1 0
      = sampleResult.values.allOutputWireValues.getD 0 0 ^^^ sampleResult.offset ∧
    signal (sampleResult.values.allOutputWireValues.getD 1 0)
      = !signal (sampleResult.values.allOutputWireValues.getD 0 0) :=
  free_xor_invariant sampleF (samplePrgOfSeed sampleSeed) sampleCircuit 0 0
    (by decide) (by decide)

/-- Claim C5: the no-argument `garble()` draws fresh randomness (modelled as
an externally supplied random stream) and returns a complete
`FastCircuitCreationValues` — both keys for every input and output wire and
the translation table — and on any circuit with at least one input wire some
pair of invocations returns different key material. -/
theorem garble_fresh_spec (F : Nat → Nat → Nat → Nat) (c : CircuitDescription)
    (h : c.inputIndices ≠ []) :
    (∀ randomness : Nat → Nat,
      (garbleFresh F c randomness).values.allInputWireValues.length
          = 2 * c.inputIndices.length ∧
      (garbleFresh F c randomness).values.allOutputWireValues.length
          = 2 * c.outputIndices.length ∧
      (garbleFresh F c randomness).values.translationTable.length
          = c.outputIndices.length) ∧
    ∃ r1 r2 : Nat → Nat, garbleFresh F c r1 ≠ garbleFresh F c r2 := by
  constructor
  · intro randomness
    simp [garbleFresh, garbleCore, interleavePairs_length]
  · refine ⟨(fun _ => 0), (fun _ => 1), ?_⟩
    obtain ⟨a, as, hc⟩ := List.exists_cons_of_ne_nil h
    intro heq
    have h0 : (garbleFresh F c (fun _ => 0)).values.allInputWireValues.getD 0 0 = 0 := by
      simp [garbleFresh, garbleCore, hc, wireKey0, interleavePairs]
    have h1 : (garbleFresh F c (fun _ => 1)).values.allInputWireValues.getD 0 0 = 1 := by
      simp [garbleFresh, garbleCore, hc, wireKey0, interleavePairs]
    rw [heq] at h0
    exact absurd (h0.symm.trans h1) (by decide)

/-- Witness for C5 at the sample circuit. -/
theorem garble_fresh_spec_witness :
    (∀ randomness : Nat → Nat,
      (garbleFresh sampleF sampleCircuit randomness).values.allInputWireValues.length
          = 2 * sampleCircuit.inputIndices.length ∧
      (garbleFresh sampleF sampleCircuit randomness).values.allOutputWireValues.length
          = 2 * sampleCircuit.outputIndices.length ∧
      (garbleFresh sampleF sampleCircuit randomness).values.translationTable.length
          = sampleCircuit.outputIndices.length) ∧
    ∃ r1 r2 : Nat → Nat,
      garbleFresh sampleF sampleCircuit r1 ≠ garbleFresh sampleF sampleCircuit r2 :=
  garble_fresh_spec sampleF sampleCircuit (by decide)

/-- Claim C7: `verify` returns true exactly when `internalVerify` succeeds on
the given both-keys input buffer and `verifyTranslationTable` also succeeds
on the output keys that `internalVerify` derives: `verify` is their
sequential composition. -/
theorem verify_composition (F : Nat → Nat → Nat → Nat) (c : CircuitDescription)
    (tables : List (List Nat)) (translationTable : List Bool)
    (allInputWireValues : List Nat) :
    verify F c tables translationTable allInputWireValues = true ↔
      ((internalVerify F c tables allInputWireValues).1 = true ∧
       verifyTranslationTable translationTable
         (internalVerify F c tables allInputWireValues).2 = true) := by
  simp [verify, Bool.and_eq_true]

/-- Claim C8: `compute()` fails with `NotAllInputsSet` exactly when the input
buffer stored by `setInputs` does not hold one key for every input wire, and
when it does, returns exactly one key per output wire. -/
theorem compute_spec (F : Nat → Nat → Nat → Nat) (c : CircuitDescription)
    (tables : List (List Nat)) (st : ScNativeState) (v : List Nat) :
    ((compute F c tables (setInputs st v)).map List.length =
      if v.length = c.inputIndices.length then Except.ok c.outputIndices.length
      else Except.error ScapiError.notAllInputsSet) ∧
    (compute F c tables (setInputs st v) = Except.error ScapiError.notAllInputsSet ↔
      v.length ≠ c.inputIndices.length) := by
  by_cases h : v.length = c.inputIndices.length <;>
    simp [compute, setInputs, h, Except.map]

/-- Claim C10: `setInputs` never fails: for every byte vector, including an
empty one or one of the wrong length for the circuit, it stores the given
buffer, replacing any previously stored inputs, with no validation; the
`NotAllInputsSet` check happens only later, inside `compute()`. -/
theorem setInputs_spec (st : ScNativeState) (v u : List Nat)
    (F : Nat → Nat → Nat → Nat) (c : CircuitDescription) (tables : List (List Nat)) :
    (setInputs st v).garbledInputs = v ∧
    (setInputs (setInputs st v) u).garbledInputs = u ∧
    (compute F c tables (setInputs st v) = Except.error ScapiError.notAllInputsSet ↔
      v.length ≠ c.inputIndices.length) := by
  refine ⟨rfl, rfl, ?_⟩
  by_cases h : v.length = c.inputIndices.length <;> simp [compute, setInputs, h]

/-- Claim C9: a `JustGarbledGarbledTablesHolder` constructed or updated with
a region and a size answers `getArraySize 0` with that size, fails with
`InvalidArgument` on every other index, and exposes its single byte region
without decoding circuit semantics. -/
theorem holder_spec (t t2 : List Nat) (s s2 : Int) (idx : Int) (hidx : idx ≠ 0)
    (h0 : JustGarbledGarbledTablesHolder) :
    (JustGarbledGarbledTablesHolder.mk t s).getArraySize 0 = Except.ok s ∧
    (JustGarbledGarbledTablesHolder.mk t s).getArraySize idx
      = Except.error ScapiError.invalidArgument ∧
    (JustGarbledGarbledTablesHolder.mk t s).toDoubleByteArray = [t] ∧
    (h0.setGarbledTables t2 s2).getArraySize 0 = Except.ok s2 ∧
    (h0.setGarbledTables t2 s2).getArraySize idx
      = Except.error ScapiError.invalidArgument ∧
    (h0.setGarbledTables t2 s2).toDoubleByteArray = [t2] := by
  simp [JustGarbledGarbledTablesHolder.getArraySize,
    JustGarbledGarbledTablesHolder.toDoubleByteArray,
    JustGarbledGarbledTablesHolder.setGarbledTables, hidx]

/-- Witness for C9 at concrete tables, sizes and the out-of-range index 2. -/
theorem holder_spec_witness :
    (JustGarbledGarbledTablesHolder.mk [1, 2] 7).getArraySize 0 = Except.ok 7 ∧
    (JustGarbledGarbledTablesHolder.mk [1, 2] 7).getArraySize 2
      = Except.error ScapiError.invalidArgument ∧
    (JustGarbledGarbledTablesHolder.mk [1, 2] 7).toDoubleByteArray = [[1, 2]] ∧
    ((JustGarbledGarbledTablesHolder.mk [] 0).setGarbledTables [3] 9).getArraySize 0
      = Except.ok 9 ∧
    ((JustGarbledGarbledTablesHolder.mk [] 0).setGarbledTables [3] 9).getArraySize 2
      = Except.error ScapiError.invalidArgument ∧
    ((JustGarbledGarbledTablesHolder.mk [] 0).setGarbledTables [3] 9).toDoubleByteArray
      = [[3]] :=
  holder_spec [1, 2] [3] 7 9 2 (by decide) (JustGarbledGarbledTablesHolder.mk [] 0)

/-- Claim C1 (code evidence): the override
`ScNativeGarbledBooleanCircuitNoFixedKey::verifiedTranslate` returns `NULL`
unconditionally — even on an output key matching neither valid key it neither
fails with `CheatAttempt` nor returns translated bits, contradicting its own
doc comment. -/
theorem verifiedTranslate_stub :
    verifiedTranslate [5] [1, 2] = VerifiedTranslateResult.nullPointer ∧
    (∀ g a, verifiedTranslate g a ≠ VerifiedTranslateResult.cheatAttempt) ∧
    (∀ g a bs, verifiedTranslate g a ≠ VerifiedTranslateResult.output bs) := by
  refine ⟨rfl, ?_, ?_⟩
  · intro g a
    simp [verifiedTranslate]
  · intro g a bs
    simp [verifiedTranslate]

/-- Claim C6 (code evidence): `getNumberOfInputs` performs the raw read
`getNumOfInputsForEachParty()[partyNumber - 1]` with no party-number check,
so on a two-party circuit the invalid party numbers 0, 3 and -1 produce an
out-of-bounds access instead of a `NoSuchParty` failure, while 1 and 2 return
the stored counts. -/
theorem getNumberOfInputs_unchecked :
    getNumberOfInputs [1, 1] 0 = none ∧
    getNumberOfInputs [1, 1] 3 = none ∧
    getNumberOfInputs [1, 1] (-1) = none ∧
    getNumberOfInputs [1, 1] 1 = some 1 ∧
    getNumberOfInputs [1, 1] 2 = some 1 := by
  decide

end Scapi
